import Mathlib

/-!
Verification development for the configuration-resolution and SSR
dependency-externalization engine (sources: `src/node/ssr/ssrExternal.ts`
excerpt and `src/node/config.ts`).  JavaScript values, the file system and
the module resolver are modelled explicitly; machine effects (fs reads,
`require.resolve`, dynamic `import`) are supplied by environment records so
that every repository function becomes a pure, executable Lean definition.
-/

namespace ViteSpec

/-! ## JS string primitives (models of `String.prototype` methods used) -/

/-- Model of JS `s.startsWith(pre)`. -/
def strStartsWith (s pre : String) : Bool :=
  List.isPrefixOf pre.toList s.toList

/-- Model of JS `s.endsWith(suf)`. -/
def strEndsWith (s suf : String) : Bool :=
  List.isSuffixOf suf.toList s.toList

/-- `sub` occurs as a contiguous run somewhere in `s`. -/
def listInfix (sub : List Char) : List Char → Bool
  | [] => List.isPrefixOf sub []
  | c :: rest => List.isPrefixOf sub (c :: rest) || listInfix sub rest

/-- Model of JS `s.includes(sub)` (substring containment). -/
def containsSubstr (s sub : String) : Bool :=
  listInfix sub.toList s.toList

/-- Model of JS `s.slice(0, s.length - 1)` (drop the final character). -/
def strDropLast (s : String) : String :=
  String.mk s.toList.dropLast

/-! ## Node `path.extname` (posix), transcribed from Node's `lib/path.js` -/

structure ExtState where
  startDot : Int
  startPart : Nat
  endIdx : Int
  matchedSlash : Bool
  preDotState : Int
deriving Repr

/-- The right-to-left scanning loop of Node's posix `path.extname`.
The second argument is one plus the index currently examined. -/
def extLoop (cs : List Char) : Nat → ExtState → ExtState
  | 0, st => st
  | Nat.succ i, st =>
    let c := cs.getD i ' '
    if c = '/' then
      if st.matchedSlash = false then { st with startPart := i + 1 }
      else extLoop cs i st
    else
      let st1 := if st.endIdx = -1 then
        { st with matchedSlash := false, endIdx := (i : Int) + 1 } else st
      let st2 :=
        if c = '.' then
          if st1.startDot = -1 then { st1 with startDot := (i : Int) }
          else if st1.preDotState ≠ 1 then { st1 with preDotState := 1 }
          else st1
        else if st1.startDot ≠ -1 then { st1 with preDotState := -1 }
        else st1
      extLoop cs i st2

/-- Node `path.extname` (posix variant), the extension of the final path
component including its leading dot, or `""`. -/
def extname (p : String) : String :=
  let cs := p.toList
  let st := extLoop cs cs.length ⟨-1, 0, -1, true, 0⟩
  if st.startDot = -1 ∨ st.endIdx = -1 ∨ st.preDotState = 0 ∨
      (st.preDotState = 1 ∧ st.startDot = st.endIdx - 1 ∧
        st.startDot = (st.startPart : Int) + 1) then
    ""
  else
    String.mk ((cs.drop st.startDot.toNat).take (st.endIdx - st.startDot).toNat)

/-! ## `shouldExternalizeForSSR` (ssrExternal.ts) -/

/-- `shouldExternalizeForSSR(id, externals)`: exact match, or a deep import
of a listed id whose path has no extension or an explicit `.js` extension. -/
def shouldExternalizeForSSR (id : String) (externals : List String) : Bool :=
  externals.any fun e =>
    id == e ||
      (strStartsWith id (e ++ "/") && (extname id == "" || strEndsWith id ".js"))

/-! ## The CommonJS-marker scan
`/\bmodule\.exports\b|\bexports[.\[]|\brequire\s*\(/.test(content)` -/

/-- JS regex word characters (`\w`), deciding `\b` boundaries. -/
def isWordChar (c : Char) : Bool :=
  (c.isAlpha && c.toNat < 128) || c.isDigit || c == '_'

/-- JS regex whitespace class `\s`. -/
def isJsSpace (c : Char) : Bool :=
  let n := c.toNat
  (9 ≤ n && n ≤ 13) || n == 32 || n == 160 || n == 5760 ||
    (8192 ≤ n && n ≤ 8202) || n == 8232 || n == 8233 || n == 8239 ||
    n == 8287 || n == 12288 || n == 65279

/-- Match a literal character run, returning the remaining characters. -/
def dropLit : List Char → List Char → Option (List Char)
  | [], rest => some rest
  | _ :: _, [] => none
  | p :: ps, c :: cs => if c == p then dropLit ps cs else none

/-- One alternative of the CJS regex matches starting at this position
(the `\b` to the left is checked by the caller). -/
def cjsMatchAt (cs : List Char) : Bool :=
  (match dropLit "module.exports".toList cs with
   | some [] => true
   | some (c :: _) => !isWordChar c
   | none => false) ||
  (match dropLit "exports".toList cs with
   | some (c :: _) => c == '.' || c == '['
   | _ => false) ||
  (match dropLit "require".toList cs with
   | some rest =>
     match rest.dropWhile isJsSpace with
     | '(' :: _ => true
     | _ => false
   | none => false)

/-- Scan every position, tracking the previous character for `\b`. -/
def cjsScan (prev : Option Char) : List Char → Bool
  | [] => false
  | c :: rest =>
    let boundary := match prev with
      | none => true
      | some p => !isWordChar p
    (boundary && cjsMatchAt (c :: rest)) || cjsScan (some c) rest

/-- The CJS-marker test applied by `resolveSSRExternal` to an entry file. -/
def hasCJSMarker (content : String) : Bool :=
  cjsScan none content.toList

/-! ## `resolveSSRExternal` (ssrExternal.ts)

The file system and the two resolvers are modelled by an environment
record; the mutable shared `Set` becomes an insertion-ordered list threaded
through the computation; the recursion into linked-package directories is
fuelled (the source recursion is bounded only by the real directory
structure). -/

/-- The `package.json` fields consumed (`devDependencies`/`dependencies`
key sets, in object key order). -/
structure Pkg where
  devDependencies : List String
  dependencies : List String
deriving Repr, DecidableEq

/-- Joint outcome of `tryNodeResolve(id,…)?.id` and
`require.resolve(id, { paths: [root] })` for one candidate:
`err` if either throws, `noEsm` if `tryNodeResolve` yields no entry, and
otherwise the two resolved files. -/
inductive ResolveOutcome where
  | err
  | noEsm
  | ok (entry requireEntry : String)
deriving Repr, DecidableEq

/-- Environment: `lookupFile(root, ['package.json'])` + JSON parse,
the per-(root, id) resolution outcomes,
`path.dirname(resolveFrom(id + '/package.json', root))`, and
`fs.readFileSync(entry, 'utf-8')`. -/
structure SSREnv where
  lookupPkg : String → Option Pkg
  resolve : String → String → ResolveOutcome
  depRoot : String → String → String
  readFile : String → String

/-- The slice of `ResolvedConfig` consumed: `root`, `ssr.external`,
`ssr.noExternal` (the latter two optional, as in `SSROptions`). -/
structure SSRConfig where
  root : String
  ssrExternal : Option (List String)
  ssrNoExternal : Option (List String)

/-- `Set.prototype.add` on an insertion-ordered list. -/
def addId (s : List String) (id : String) : List String :=
  if id ∈ s then s else s ++ [id]

/-- The body of the `for (const id of deps)` loop for a single candidate,
parameterized by the recursive call used for linked packages. -/
def ssrDepStep (recur : String → List String → List String × List String)
    (env : SSREnv) (root : String) (s : List String) (id : String) :
    List String :=
  match env.resolve root id with
  | ResolveOutcome.err => s
  | ResolveOutcome.noEsm => addId s id
  | ResolveOutcome.ok entry requireEntry =>
    if containsSubstr entry "node_modules" = false then
      (recur (env.depRoot root id) s).1
    else if entry ≠ requireEntry then
      addId s id
    else if (strEndsWith entry ".js" || strEndsWith entry ".mjs") = false then
      s
    else if hasCJSMarker (env.readFile entry) then
      addId s id
    else
      s

/-- `resolveSSRExternal`, returning both the final shared set and the
returned array (recursive calls keep the set, discard the array). -/
def ssrCore : Nat → SSREnv → SSRConfig → String → List String →
    List String → List String × List String
  | 0, _, _, _, _, s => (s, [])
  | Nat.succ fuel, env, cfg, root, knownImports, s =>
    match env.lookupPkg root with
    | none => (s, [])
    | some pkg =>
      let s1 := pkg.devDependencies.foldl addId s
      let deps := knownImports ++ pkg.dependencies
      let s2 := deps.foldl
        (ssrDepStep (fun r t => ssrCore fuel env cfg r knownImports t) env root) s1
      let s3 := (cfg.ssrExternal.getD []).foldl addId s2
      let externals := s3.filter fun id => !((cfg.ssrNoExternal.getD []).contains id)
      (s3, externals.filter fun id => !(id == "vite"))

/-- The list returned by the top-level call of `resolveSSRExternal`. -/
def resolveSSRExternal (fuel : Nat) (env : SSREnv) (cfg : SSRConfig)
    (knownImports : List String) (ssrExternals : List String) : List String :=
  (ssrCore fuel env cfg cfg.root knownImports ssrExternals).2

/-- Modelled from the spec: the per-candidate step under the spec sentence
"For each candidate id, skipping ids already in `S`" — identical to
`ssrDepStep` except that a candidate already in the set is skipped.
(The source loop has no such membership check.) -/
def ssrDepStepSkip (recur : String → List String → List String × List String)
    (env : SSREnv) (root : String) (s : List String) (id : String) :
    List String :=
  if id ∈ s then s else ssrDepStep recur env root s id

/-- Modelled from the spec: `resolveSSRExternal` as described by the spec,
with the skip of already-membered candidates. -/
def ssrCoreSkip : Nat → SSREnv → SSRConfig → String → List String →
    List String → List String × List String
  | 0, _, _, _, _, s => (s, [])
  | Nat.succ fuel, env, cfg, root, knownImports, s =>
    match env.lookupPkg root with
    | none => (s, [])
    | some pkg =>
      let s1 := pkg.devDependencies.foldl addId s
      let deps := knownImports ++ pkg.dependencies
      let s2 := deps.foldl
        (ssrDepStepSkip (fun r t => ssrCoreSkip fuel env cfg r knownImports t)
          env root) s1
      let s3 := (cfg.ssrExternal.getD []).foldl addId s2
      let externals := s3.filter fun id => !((cfg.ssrNoExternal.getD []).contains id)
      (s3, externals.filter fun id => !(id == "vite"))

/-- Modelled from the spec: returned list of the skipping variant. -/
def resolveSSRExternalSkip (fuel : Nat) (env : SSREnv) (cfg : SSRConfig)
    (knownImports : List String) (ssrExternals : List String) : List String :=
  (ssrCoreSkip fuel env cfg cfg.root knownImports ssrExternals).2

/-! ## JavaScript values and `mergeConfig` (config.ts)

`null` and `undefined` are identified (the source only ever applies the
nullish tests `value == null` / `existing != null` to them); objects are
insertion-ordered association lists; functions and regexes are opaque
leaves.  A JS exception (`TypeError`) is `Except.error ()`. -/

inductive JSValue where
  | null
  | str (s : String)
  | num (n : Int)
  | bool (b : Bool)
  | regex (source : String)
  | fn (tag : String)
  | arr (elems : List JSValue)
  | obj (fields : List (String × JSValue))

/-- `value == null` (matches both `null` and `undefined`). -/
def isNullish : JSValue → Bool
  | JSValue.null => true
  | _ => false

/-- `Array.isArray(value)`. -/
def isArrayV : JSValue → Bool
  | JSValue.arr _ => true
  | _ => false

/-- `isObject(value)` from utils.ts:
`Object.prototype.toString.call(value) === '[object Object]'`
(true for plain objects only — not arrays, regexes or functions). -/
def isObjectV : JSValue → Bool
  | JSValue.obj _ => true
  | _ => false

def arrElems : JSValue → List JSValue
  | JSValue.arr xs => xs
  | _ => []

def objFields : JSValue → List (String × JSValue)
  | JSValue.obj fs => fs
  | _ => []

/-- Property read `o[k]` on an object's fields: absent keys give
`undefined`. -/
def jsLookup (fields : List (String × JSValue)) (k : String) : JSValue :=
  match fields.find? (fun p => p.1 == k) with
  | some p => p.2
  | none => JSValue.null

/-- Property write `o[k] = v`: replaces in place, appends a fresh key. -/
def setKey (fields : List (String × JSValue)) (k : String) (v : JSValue) :
    List (String × JSValue) :=
  if fields.any (fun p => p.1 == k) then
    fields.map fun p => if p.1 == k then (p.1, v) else p
  else
    fields ++ [(k, v)]

/-- Property access / destructuring `v.k`: throws `TypeError` on a nullish
receiver, yields `undefined` on other non-objects. -/
def getField (v : JSValue) (k : String) : Except Unit JSValue :=
  match v with
  | JSValue.null => Except.error ()
  | JSValue.obj fs => Except.ok (jsLookup fs k)
  | _ => Except.ok JSValue.null

/-- `Object.keys(o)` paired with `o[key]`.  Strings enumerate their index
properties; other primitives have no enumerable keys.  (The array case is
unreachable in `normalizeAlias`, which tests `Array.isArray` first; nullish
receivers never reach here because both `mergeAlias` arguments are
guarded non-nullish by `mergeConfig`.) -/
def jsKeyVals : JSValue → List (String × JSValue)
  | JSValue.obj fs => fs
  | JSValue.str s =>
    (List.range s.toList.length).map fun i =>
      (toString i, JSValue.str (String.mk [s.toList.getD i ' ']))
  | _ => []

/-- `normalizeSingleAlias({find, replacement})` from config.ts: trims one
trailing `/` from both sides when `find` is a string ending in `/` and the
replacement also ends in `/`.  When `find` is such a string but the
replacement is not a string, `replacement.endsWith` is not a function and
the call throws. -/
def normalizeSingleAlias (v : JSValue) : Except Unit JSValue := do
  let find ← getField v "find"
  let replacement ← getField v "replacement"
  match find with
  | JSValue.str fs =>
    if strEndsWith fs "/" then
      match replacement with
      | JSValue.str rs =>
        if strEndsWith rs "/" then
          Except.ok (JSValue.obj
            [("find", JSValue.str (strDropLast fs)),
             ("replacement", JSValue.str (strDropLast rs))])
        else
          Except.ok (JSValue.obj [("find", find), ("replacement", replacement)])
      | _ => Except.error ()
    else
      Except.ok (JSValue.obj [("find", find), ("replacement", replacement)])
  | _ => Except.ok (JSValue.obj [("find", find), ("replacement", replacement)])

/-- `normalizeAlias(o)`: arrays map entrywise; anything else is treated as
a mapping via `Object.keys`. -/
def normalizeAlias (o : JSValue) : Except Unit (List JSValue) :=
  match o with
  | JSValue.arr xs => xs.mapM normalizeSingleAlias
  | _ =>
    (jsKeyVals o).mapM fun kv =>
      normalizeSingleAlias
        (JSValue.obj [("find", JSValue.str kv.1), ("replacement", kv.2)])

/-- `mergeAlias(a, b)`: both sides normalized, `a` entries first. -/
def mergeAliasJS (a b : JSValue) : Except Unit (List JSValue) := do
  let na ← normalizeAlias a
  let nb ← normalizeAlias b
  Except.ok (na ++ nb)

/-- `[].concat(existing, value)`: one level of array flattening. -/
def toArr : JSValue → List JSValue
  | JSValue.arr xs => xs
  | v => [v]

/-- One iteration of `mergeConfig`'s `for key in b` loop, parameterized by
the recursive call used when both values are plain objects. -/
def mergeStep
    (recur : List (String × JSValue) → List (String × JSValue) →
      Except Unit (List (String × JSValue)))
    (isRoot : Bool) (merged : List (String × JSValue))
    (kv : String × JSValue) : Except Unit (List (String × JSValue)) :=
  let key := kv.1
  let value := kv.2
  if isNullish value then Except.ok merged
  else
    let existing := jsLookup merged key
    if isArrayV existing && isArrayV value then
      Except.ok (setKey merged key (JSValue.arr (arrElems existing ++ arrElems value)))
    else if isObjectV existing && isObjectV value then
      (recur (objFields existing) (objFields value)).map fun m =>
        setKey merged key (JSValue.obj m)
    else if !isNullish existing && isRoot then
      if key == "alias" then
        (mergeAliasJS existing value).map fun l =>
          setKey merged key (JSValue.arr l)
      else if key == "assetsInclude" then
        Except.ok (setKey merged key (JSValue.arr (toArr existing ++ toArr value)))
      else
        Except.ok (setKey merged key value)
    else
      Except.ok (setKey merged key value)

/-- `mergeConfig(a, b, isRoot)`: start from a copy of `a`, fold `b`'s
entries.  Fuel bounds the object-nesting depth (the source recursion is
bounded by the actual values, which are finite). -/
def mergeConfig : Nat → List (String × JSValue) → List (String × JSValue) →
    Bool → Except Unit (List (String × JSValue))
  | 0, a, _, _ => Except.ok a
  | Nat.succ fuel, a, b, isRoot =>
    b.foldlM (mergeStep (fun x y => mergeConfig fuel x y false) isRoot) a

/-! ## Plugin ordering and hook invocation order (config.ts) -/

/-- The plugin fields consumed by `resolveConfig`'s ordering and hook
loops: `enforce`, `apply`, and whether the `config` / `configResolved`
hooks are present.  `name` identifies the plugin. -/
structure Plugin where
  name : String
  enforce : Option String
  apply : Option String
  hasConfig : Bool
  hasConfigResolved : Bool
deriving Repr, DecidableEq

/-- An element of the `(Plugin | Plugin[])[]` user array. -/
inductive PluginEntry where
  | one (p : Plugin)
  | many (ps : List Plugin)
deriving Repr, DecidableEq

/-- `plugins.flat()`. -/
def flattenPlugins (entries : List PluginEntry) : List Plugin :=
  entries.flatMap fun e =>
    match e with
    | PluginEntry.one p => [p]
    | PluginEntry.many ps => ps

/-- `(config.plugins || []).flat().filter(p => !p.apply || p.apply === command)`. -/
def rawUserPlugins (entries : List PluginEntry) (command : String) :
    List Plugin :=
  (flattenPlugins entries).filter fun p =>
    p.apply.isNone || p.apply == some command

/-- `sortUserPlugins`: one pass pushing each plugin onto the pre / post /
normal bucket selected by its `enforce` tag. -/
def sortUserPlugins (plugins : Option (List Plugin)) :
    List Plugin × List Plugin × List Plugin :=
  match plugins with
  | none => ([], [], [])
  | some ps =>
    ps.foldl
      (fun acc p =>
        if p.enforce == some "pre" then (acc.1 ++ [p], acc.2.1, acc.2.2)
        else if p.enforce == some "post" then (acc.1, acc.2.1, acc.2.2 ++ [p])
        else (acc.1, acc.2.1 ++ [p], acc.2.2))
      ([], [], [])

/-- `userPlugins = [...prePlugins, ...normalPlugins, ...postPlugins]` as
built by `resolveConfig`. -/
def userPluginsOrder (entries : List PluginEntry) (command : String) :
    List Plugin :=
  let sorted := sortUserPlugins (some (rawUserPlugins entries command))
  sorted.1 ++ sorted.2.1 ++ sorted.2.2

/-- The sequence of plugins whose `config` hook `resolveConfig` invokes
(`userPlugins.forEach(p => { if (p.config) ... })`), in invocation order. -/
def configHookOrder (entries : List PluginEntry) (command : String) :
    List Plugin :=
  (userPluginsOrder entries command).filter (·.hasConfig)

/-- The sequence of plugins whose `configResolved` hook `resolveConfig`
invokes, in invocation order. -/
def configResolvedHookOrder (entries : List PluginEntry) (command : String) :
    List Plugin :=
  (userPluginsOrder entries command).filter (·.hasConfigResolved)

/-! ## `loadConfigFromFile`: discovery, strategy choice, and the transient
compiled artifact (config.ts) -/

/-- Environment for one `loadConfigFromFile` call: which config files
exist at the root, the manifest's `"type"` field, and whether the
bundling step, the dynamic `import`, and the CommonJS-path loads succeed.
(`importOk = false` models the dynamic `import(...)` of the file — or of
the written artifact — throwing, e.g. a runtime error in the config.) -/
structure LoadEnv where
  pkgTypeModule : Bool
  jsExists : Bool
  mjsExists : Bool
  tsExists : Bool
  bundleOk : Bool
  importOk : Bool
  cjsPathOk : Bool

inductive LoadResult where
  | noConfig
  | ok
  | threw
deriving Repr, DecidableEq

/-- `loadConfigFromFile`, observed through its outcome and whether the
transient sibling artifact (`resolvedPath + '.js'`) exists after the call.
Mirrors config.ts: discovery order js → mjs → ts; `isTS` is only ever set
by discovery of `vite.config.ts`; in the `isMjs && isTS` branch the
compiled bundle is written to the artifact, dynamically imported, and
unlinked — with no try/finally, so a failing import propagates through the
`catch` (which only logs and rethrows) and the `finally` (which only stops
the esbuild service), leaving the artifact on disk. -/
def loadConfigFromFileModel (env : LoadEnv) (explicitPath : Option String) :
    LoadResult × Bool :=
  let isMjs0 := env.pkgTypeModule
  match explicitPath with
  | some _ =>
    -- explicit path: `isTS` stays false; strategy picked by `isMjs` alone
    if isMjs0 then
      (if env.importOk then LoadResult.ok else LoadResult.threw, false)
    else
      (if env.cjsPathOk then LoadResult.ok else LoadResult.threw, false)
  | none =>
    if env.jsExists then
      (if env.cjsPathOk then LoadResult.ok else LoadResult.threw, false)
    else if env.mjsExists then
      (if env.importOk then LoadResult.ok else LoadResult.threw, false)
    else if env.tsExists then
      if isMjs0 then
        -- isMjs && isTS: bundle, write artifact, import, unlink
        if env.bundleOk = false then (LoadResult.threw, false)
        else if env.importOk then (LoadResult.ok, false)
        else (LoadResult.threw, true)
      else
        -- ts without native ESM: bundle to cjs, evaluate in-memory
        (if env.bundleOk && env.cjsPathOk then LoadResult.ok
         else LoadResult.threw, false)
    else (LoadResult.noConfig, false)

/-! ## `loadEnv` (config.ts) -/

/-- Environment for `loadEnv`: the ambient `process.env` entries in
iteration order, and for each `.env*` file name the parsed (and
dotenv-expanded) key/value list — `none` when `lookupFile` finds no such
file.  Expansion only rewrites values, never keys. -/
structure EnvProvider where
  processEnv : List (String × String)
  parsedFile : String → String → Option (List (String × String))

/-- Lookup in the accumulated `env` object (`env[key] === undefined`). -/
def envHas (env : List (String × String)) (k : String) : Bool :=
  env.any fun p => p.1 == k

/-- One iteration of `loadEnv`'s `for key in process.env` loop. -/
def envProcessStep (prefixStr : String) (acc : List (String × String))
    (kv : String × String) : List (String × String) :=
  if strStartsWith kv.1 prefixStr && !envHas acc kv.1 then acc ++ [kv]
  else acc

/-- One iteration of `loadEnv`'s loop over a parsed `.env` file's entries:
prefixed new keys are exposed; a `NODE_ENV` entry is routed to
`process.env.VITE_USER_NODE_ENV` (outside the returned mapping, modelled
as leaving the result unchanged); anything else is dropped. -/
def envFileEntryStep (prefixStr : String) (acc : List (String × String))
    (kv : String × String) : List (String × String) :=
  if strStartsWith kv.1 prefixStr && !envHas acc kv.1 then acc ++ [kv]
  else if kv.1 == "NODE_ENV" then acc
  else acc

/-- One iteration of `loadEnv`'s `for file of envFiles` loop. -/
def envFileStep (p : EnvProvider) (root prefixStr : String)
    (acc : List (String × String)) (file : String) :
    List (String × String) :=
  match p.parsedFile root file with
  | none => acc
  | some parsed => parsed.foldl (envFileEntryStep prefixStr) acc

/-- `loadEnv(mode, root, prefix = 'VITE_')`.  Throws on `mode === 'local'`;
seeds prefixed keys from `process.env`, then folds the four `.env` files,
keeping only keys that start with the prefix and are not yet present.  A
parsed `NODE_ENV` entry is routed to `process.env.VITE_USER_NODE_ENV`
(outside the returned mapping) and is modelled as leaving the result
unchanged. -/
def loadEnv (p : EnvProvider) (mode : String) (root : String)
    (prefixStr : String := "VITE_") : Except Unit (List (String × String)) :=
  if mode == "local" then Except.error ()
  else
    let envFiles := [".env." ++ mode ++ ".local", ".env." ++ mode,
      ".env.local", ".env"]
    let fromProcess := p.processEnv.foldl (envProcessStep prefixStr) []
    let result := envFiles.foldl (envFileStep p root prefixStr) fromProcess
    Except.ok result

/-! ## Concrete fixtures used by counterexamples and witnesses -/

/-- A root whose manifest has no dependencies at all. -/
def envCexA : SSREnv :=
  { lookupPkg := fun _ => some ⟨[], []⟩
  , resolve := fun _ _ => ResolveOutcome.err
  , depRoot := fun _ _ => ""
  , readFile := fun _ => "" }

/-- A config that lists the tool's own package name in `ssr.external`. -/
def cfgCexA : SSRConfig :=
  { root := "r", ssrExternal := some ["vite"], ssrNoExternal := none }

/-- A workspace where root `r` lists `a` both as devDependency and as
dependency, `a` resolves to a linked (non-`node_modules`) entry whose
directory `L` in turn has devDependency `b`. -/
def envCexB : SSREnv :=
  { lookupPkg := fun r =>
      if r == "r" then some ⟨["a"], ["a"]⟩
      else if r == "L" then some ⟨["b"], []⟩
      else none
  , resolve := fun r id =>
      if r == "r" && id == "a" then ResolveOutcome.ok "lib/entry.js" "lib/entry.js"
      else ResolveOutcome.err
  , depRoot := fun _ _ => "L"
  , readFile := fun _ => "" }

def cfgCexB : SSRConfig :=
  { root := "r", ssrExternal := none, ssrNoExternal := none }

/-- A root whose manifest has devDependency `mocha` (unresolvable: every
resolution throws). -/
def envCexC : SSREnv :=
  { lookupPkg := fun _ => some ⟨["mocha"], []⟩
  , resolve := fun _ _ => ResolveOutcome.err
  , depRoot := fun _ _ => ""
  , readFile := fun _ => "" }

def cfgCexC : SSRConfig :=
  { root := "r", ssrExternal := some ["lodash"], ssrNoExternal := some ["left"] }

def pluginA : Plugin := ⟨"A", none, none, true, true⟩
def pluginB : Plugin := ⟨"B", some "pre", none, true, true⟩
def pluginC : Plugin := ⟨"C", some "post", none, true, true⟩
def pluginD : Plugin := ⟨"D", some "pre", none, true, true⟩

def pluginEntriesEx : List PluginEntry :=
  [PluginEntry.one pluginA, PluginEntry.one pluginB,
   PluginEntry.one pluginC, PluginEntry.one pluginD]

/-- An ambient environment with one prefixed and one unprefixed process
variable and a `.env` file carrying prefixed, `NODE_ENV` and unprefixed
entries. -/
def provC10 : EnvProvider :=
  { processEnv := [("VITE_X", "1"), ("OTHER", "2")]
  , parsedFile := fun _ file =>
      if file == ".env" then
        some [("VITE_Y", "3"), ("NODE_ENV", "production"), ("PATH", "p")]
      else none }

/-! ## Library of facts about the accumulator set -/

theorem mem_addId_of_mem {s : List String} {a : String} (b : String)
    (h : a ∈ s) : a ∈ addId s b := by
  unfold addId
  split
  · exact h
  · exact List.mem_append_left _ h

theorem mem_addId_self (s : List String) (a : String) : a ∈ addId s a := by
  unfold addId
  split
  · assumption
  · exact List.mem_append_right _ (List.mem_singleton.mpr rfl)

theorem addId_of_mem {s : List String} {a : String} (h : a ∈ s) :
    addId s a = s := by
  unfold addId
  simp [h]

theorem foldl_mem_mono {g : List String → String → List String}
    (hg : ∀ s x a, a ∈ s → a ∈ g s x) :
    ∀ (l : List String) (s : List String) (a : String),
      a ∈ s → a ∈ l.foldl g s := by
  intro l
  induction l with
  | nil => intro s a h; simpa using h
  | cons x xs ih => intro s a h; exact ih _ _ (hg _ _ _ h)

theorem mem_foldl_addId_of_mem {s : List String} {a : String}
    (l : List String) (h : a ∈ s) : a ∈ l.foldl addId s :=
  foldl_mem_mono (fun _ x _ hx => mem_addId_of_mem x hx) l s a h

theorem mem_foldl_addId_of_mem_list {a : String} :
    ∀ (l : List String) (s : List String), a ∈ l → a ∈ l.foldl addId s := by
  intro l
  induction l with
  | nil => intro s h; simp at h
  | cons x xs ih =>
    intro s h
    rcases List.mem_cons.mp h with rfl | h2
    · exact mem_foldl_addId_of_mem xs (mem_addId_self s a)
    · exact ih _ h2

theorem ssrDepStep_mono {recur : String → List String → List String × List String}
    (hrec : ∀ r s b, b ∈ s → b ∈ (recur r s).1)
    (env : SSREnv) (root : String) {s : List String} {a : String}
    (id : String) (ha : a ∈ s) : a ∈ ssrDepStep recur env root s id := by
  unfold ssrDepStep
  cases env.resolve root id with
  | err => exact ha
  | noEsm => exact mem_addId_of_mem id ha
  | ok entry requireEntry =>
    simp only
    split
    · exact hrec _ _ _ ha
    · split
      · exact mem_addId_of_mem id ha
      · split
        · exact ha
        · split
          · exact mem_addId_of_mem id ha
          · exact ha

theorem ssrCore_fst_mono :
    ∀ (fuel : Nat) (env : SSREnv) (cfg : SSRConfig) (root : String)
      (knownImports s : List String) (a : String),
      a ∈ s → a ∈ (ssrCore fuel env cfg root knownImports s).1 := by
  intro fuel
  induction fuel with
  | zero => intro env cfg root K s a h; simpa [ssrCore] using h
  | succ f ih =>
    intro env cfg root K s a h
    cases hpkg : env.lookupPkg root with
    | none => simpa [ssrCore, hpkg] using h
    | some pkg =>
      simp only [ssrCore, hpkg]
      exact mem_foldl_addId_of_mem _
        (foldl_mem_mono
          (fun t x b hb =>
            ssrDepStep_mono (fun r u c hc => ih env cfg r K u c hc) env root x hb)
          _ _ _ (mem_foldl_addId_of_mem _ h))

theorem resolveSSRExternal_eq (f : Nat) (env : SSREnv) (cfg : SSRConfig)
    (K S : List String) (pkg : Pkg) (hpkg : env.lookupPkg cfg.root = some pkg) :
    resolveSSRExternal (Nat.succ f) env cfg K S =
      (((cfg.ssrExternal.getD []).foldl addId
          ((K ++ pkg.dependencies).foldl
            (ssrDepStep (fun r t => ssrCore f env cfg r K t) env cfg.root)
            (pkg.devDependencies.foldl addId S))).filter
        (fun id => !((cfg.ssrNoExternal.getD []).contains id))).filter
        (fun id => !(id == "vite")) := by
  simp [resolveSSRExternal, ssrCore, hpkg]

/-! ## Claims C1, C2, C8 about `resolveSSRExternal` -/

/-- Claim C1, counterexample: the claim as stated is false when the user
lists `vite` itself in `ssr.external` — its first conjunct excludes `vite`
from the result while its third conjunct demands every `external` entry
not in `noExternal` be present, and at this input (manifest found,
`ssr.external = ['vite']`, no `noExternal`) the result is `[]`. -/
theorem ssrExternal_vite_external_claim_fails :
    ¬ ("vite" ∉ resolveSSRExternal 1 envCexA cfgCexA [] [] ∧
        (∀ id ∈ cfgCexA.ssrNoExternal.getD [],
          id ∉ resolveSSRExternal 1 envCexA cfgCexA [] []) ∧
        ((envCexA.lookupPkg cfgCexA.root).isSome = true →
          ∀ id ∈ cfgCexA.ssrExternal.getD [],
            id ∉ cfgCexA.ssrNoExternal.getD [] →
              id ∈ resolveSSRExternal 1 envCexA cfgCexA [] [])) := by decide

/-- Claim C1 (amended): the result of `resolveSSRExternal` never contains
`vite` (even when listed in `ssr.external`), never contains an id listed
in `ssr.noExternal`, and — when the root's manifest is found — contains
every id of `ssr.external` that is neither listed in `ssr.noExternal` nor
equal to `vite` itself. -/
theorem ssrExternal_user_list_rules (fuel : Nat) (env : SSREnv)
    (cfg : SSRConfig) (K S : List String) (hf : 0 < fuel) :
    "vite" ∉ resolveSSRExternal fuel env cfg K S ∧
      (∀ id ∈ cfg.ssrNoExternal.getD [],
        id ∉ resolveSSRExternal fuel env cfg K S) ∧
      ((env.lookupPkg cfg.root).isSome = true →
        ∀ id ∈ cfg.ssrExternal.getD [], id ∉ cfg.ssrNoExternal.getD [] →
          id ≠ "vite" → id ∈ resolveSSRExternal fuel env cfg K S) := by
  cases fuel with
  | zero => exact absurd hf (by omega)
  | succ f =>
    cases hpkg : env.lookupPkg cfg.root with
    | none =>
      refine ⟨?_, ?_, ?_⟩
      · simp [resolveSSRExternal, ssrCore, hpkg]
      · intro id _; simp [resolveSSRExternal, ssrCore, hpkg]
      · simp [hpkg]
    | some pkg =>
      rw [resolveSSRExternal_eq f env cfg K S pkg hpkg]
      refine ⟨?_, ?_, ?_⟩
      · intro hmem
        have h2 := (List.mem_filter.mp hmem).2
        simp at h2
      · intro id hid hmem
        have h1 := List.mem_filter.mp hmem
        have h2 := (List.mem_filter.mp h1.1).2
        simp [List.elem_iff] at h2
        exact h2 hid
      · intro _ id hid hno hv
        refine List.mem_filter.mpr ⟨List.mem_filter.mpr ⟨?_, ?_⟩, ?_⟩
        · exact mem_foldl_addId_of_mem_list _ _ hid
        · simp [List.elem_iff]
          exact hno
        · simp [hv]

/-- Claim C1, witness at a concrete input. -/
theorem ssrExternal_user_list_rules_witness :
    "vite" ∉ resolveSSRExternal 1 envCexC cfgCexC [] [] ∧
      (∀ id ∈ cfgCexC.ssrNoExternal.getD [],
        id ∉ resolveSSRExternal 1 envCexC cfgCexC [] []) ∧
      ((envCexC.lookupPkg cfgCexC.root).isSome = true →
        ∀ id ∈ cfgCexC.ssrExternal.getD [], id ∉ cfgCexC.ssrNoExternal.getD [] →
          id ≠ "vite" → id ∈ resolveSSRExternal 1 envCexC cfgCexC [] []) :=
  ssrExternal_user_list_rules 1 envCexC cfgCexC [] [] (by decide)

/-- Claim C2: when the root manifest is found, every `devDependencies`
name is in the result — for every environment, hence whatever the
resolution outcomes or file contents for that id (even unresolvable) —
unless it is listed in `ssr.noExternal` or equals `vite`. -/
theorem ssrExternal_devDependencies_unconditional (fuel : Nat)
    (env : SSREnv) (cfg : SSRConfig) (K S : List String) (pkg : Pkg)
    (hf : 0 < fuel) (hpkg : env.lookupPkg cfg.root = some pkg) :
    ∀ id ∈ pkg.devDependencies, id ∉ cfg.ssrNoExternal.getD [] →
      id ≠ "vite" → id ∈ resolveSSRExternal fuel env cfg K S := by
  cases fuel with
  | zero => exact absurd hf (by omega)
  | succ f =>
    intro id hid hno hv
    rw [resolveSSRExternal_eq f env cfg K S pkg hpkg]
    refine List.mem_filter.mpr ⟨List.mem_filter.mpr ⟨?_, ?_⟩, ?_⟩
    · exact mem_foldl_addId_of_mem _
        (foldl_mem_mono
          (fun t x b hb =>
            ssrDepStep_mono (fun r u c hc => ssrCore_fst_mono f env cfg r K u c hc)
              env cfg.root x hb)
          _ _ _ (mem_foldl_addId_of_mem_list _ _ hid))
    · simp [List.elem_iff]; exact hno
    · simp [hv]

/-- Claim C2, witness: the unresolvable devDependency `mocha` still lands
in the result. -/
theorem ssrExternal_devDependencies_unconditional_witness :
    "mocha" ∈ resolveSSRExternal 1 envCexC cfgCexC [] [] :=
  ssrExternal_devDependencies_unconditional 1 envCexC cfgCexC [] []
    ⟨["mocha"], []⟩ (by decide) (by decide) "mocha" (by decide) (by decide)
    (by decide)

/-- Claim C8, counterexample: the loop has no membership check, so a
candidate already in the accumulator is classified again.  Here `a` is
seeded from `devDependencies` and is also a dependency; its (re)
classification recurses into the linked directory `L`, adding `b`; the
spec-modelled skipping variant returns without `b`. -/
theorem ssrExternal_skip_claim_fails :
    resolveSSRExternal 2 envCexB cfgCexB [] [] ≠
      resolveSSRExternalSkip 2 envCexB cfgCexB [] [] := by decide

/-- Claim C8 (amended): candidate ids already in the shared set are not
skipped — the classification steps run again (see the counterexample) —
but reprocessing never removes anything: the shared set only grows during
a pass, and re-adding a member leaves it unchanged. -/
theorem ssrExternal_accumulator_monotone (fuel : Nat) (env : SSREnv)
    (cfg : SSRConfig) (root : String) (K S : List String) :
    (∀ a ∈ S, a ∈ (ssrCore fuel env cfg root K S).1) ∧
      (∀ id ∈ S, addId S id = S) :=
  ⟨fun a ha => ssrCore_fst_mono fuel env cfg root K S a ha,
   fun _ hid => addId_of_mem hid⟩

/-- Claim C8, witness at a concrete input. -/
theorem ssrExternal_accumulator_monotone_witness :
    "a" ∈ (ssrCore 2 envCexB cfgCexB "r" [] ["a"]).1 ∧
      addId ["a"] "a" = ["a"] :=
  ⟨(ssrExternal_accumulator_monotone 2 envCexB cfgCexB "r" [] ["a"]).1
      "a" (by decide),
   (ssrExternal_accumulator_monotone 2 envCexB cfgCexB "r" [] ["a"]).2
      "a" (by decide)⟩

/-- Claim C3: `shouldExternalizeForSSR` is true exactly when some listed
id matches the import exactly, or the import is a deep import of a listed
id with no extension or an explicit `.js` extension; with the three
concrete evaluations from the spec. -/
theorem shouldExternalizeForSSR_spec :
    (∀ (id : String) (externals : List String),
        shouldExternalizeForSSR id externals = true ↔
          ∃ e, e ∈ externals ∧ (id = e ∨
            (strStartsWith id (e ++ "/") = true ∧
              (extname id = "" ∨ strEndsWith id ".js" = true)))) ∧
      shouldExternalizeForSSR "lodash/get" ["lodash"] = true ∧
      shouldExternalizeForSSR "lodash/style.css" ["lodash"] = false ∧
      shouldExternalizeForSSR "lodash-es" ["lodash"] = false := by
  refine ⟨?_, by decide, by decide, by decide⟩
  intro id externals
  simp [shouldExternalizeForSSR, List.any_eq_true, Bool.or_eq_true,
    Bool.and_eq_true, beq_iff_eq]

/-! ## Library of facts about `mergeConfig` -/

theorem foldlM_ok {α β : Type} (g : α → β → Except Unit α) :
    ∀ (l : List β) (s : α), (∀ t kv, kv ∈ l → ∃ r, g t kv = Except.ok r) →
      ∃ r, List.foldlM g s l = Except.ok r := by
  intro l
  induction l with
  | nil => intro s _; exact ⟨s, rfl⟩
  | cons x xs ih =>
    intro s h
    obtain ⟨r, hr⟩ := h s x (List.mem_cons_self _ _)
    obtain ⟨r2, hr2⟩ := ih r (fun t kv hkv => h t kv (List.mem_cons_of_mem _ hkv))
    refine ⟨r2, ?_⟩
    rw [List.foldlM_cons, hr]
    exact hr2

theorem mergeStep_false_ok
    (recur : List (String × JSValue) → List (String × JSValue) →
      Except Unit (List (String × JSValue)))
    (hrec : ∀ x y, ∃ r, recur x y = Except.ok r) :
    ∀ merged kv, ∃ r, mergeStep recur false merged kv = Except.ok r := by
  intro merged kv
  simp only [mergeStep]
  split
  · exact ⟨merged, rfl⟩
  · split
    · exact ⟨_, rfl⟩
    · split
      · obtain ⟨r, hr⟩ := hrec (objFields (jsLookup merged kv.1)) (objFields kv.2)
        rw [hr]
        exact ⟨_, rfl⟩
      · split
        · rename_i hguard
          simp at hguard
        · exact ⟨_, rfl⟩

theorem mergeConfig_false_total :
    ∀ (fuel : Nat) (a b : List (String × JSValue)),
      ∃ r, mergeConfig fuel a b false = Except.ok r := by
  intro fuel
  induction fuel with
  | zero => intro a b; exact ⟨a, rfl⟩
  | succ f ih =>
    intro a b
    simp only [mergeConfig]
    exact foldlM_ok _ b a (fun t kv _ => mergeStep_false_ok _ (fun x y => ih x y) t kv)

theorem mergeStep_root_ok
    (recur : List (String × JSValue) → List (String × JSValue) →
      Except Unit (List (String × JSValue)))
    (hrec : ∀ x y, ∃ r, recur x y = Except.ok r)
    (merged : List (String × JSValue)) (kv : String × JSValue)
    (hk : kv.1 ≠ "alias") :
    ∃ r, mergeStep recur true merged kv = Except.ok r := by
  simp only [mergeStep]
  split
  · exact ⟨merged, rfl⟩
  · split
    · exact ⟨_, rfl⟩
    · split
      · obtain ⟨r, hr⟩ := hrec (objFields (jsLookup merged kv.1)) (objFields kv.2)
        rw [hr]
        exact ⟨_, rfl⟩
      · split
        · split
          · rename_i halias
            exact absurd (by simpa using halias) hk
          · split
            · exact ⟨_, rfl⟩
            · exact ⟨_, rfl⟩
        · exact ⟨_, rfl⟩

theorem isArrayV_arr {x : JSValue} (h : isArrayV x = true) :
    ∃ xs, x = JSValue.arr xs := by
  cases x <;> first | exact ⟨_, rfl⟩ | simp [isArrayV] at h

/-! ## Claims C4, C5, C9 about `mergeConfig` -/

/-- Claim C4, counterexample: with plain objects on both sides the code
recurses and deep-merges instead of replacing, so the claim's "otherwise
the override's value replaces the base's value" fails at
`merge({a:{x:1}}, {a:{y:2}})`, which yields `{a:{x:1,y:2}}`. -/
theorem mergeConfig_object_override_claim_fails :
    ¬ (mergeConfig 2 [("a", JSValue.obj [("x", JSValue.num 1)])]
        [("a", JSValue.obj [("y", JSValue.num 2)])] true
      = Except.ok (setKey [("a", JSValue.obj [("x", JSValue.num 1)])] "a"
          (JSValue.obj [("y", JSValue.num 2)]))) := by
  intro h
  simp only [show mergeConfig 2 [("a", JSValue.obj [("x", JSValue.num 1)])]
      [("a", JSValue.obj [("y", JSValue.num 2)])] true
    = Except.ok [("a", JSValue.obj [("x", JSValue.num 1), ("y", JSValue.num 2)])]
    from rfl] at h
  simp [setKey] at h

/-- Claim C4 (amended): the generic merge rules hold — nullish override
values keep the base, two ordered sequences concatenate base-then-override,
and otherwise the override replaces the base, except when both values are
plain mappings (which deep-merge recursively) or when the root-level
`alias`/`assetsInclude` special-casing applies; plus the three concrete
examples of the claim. -/
theorem mergeConfig_generic_rules :
    (∀ (recur : List (String × JSValue) → List (String × JSValue) →
          Except Unit (List (String × JSValue)))
        (isRoot : Bool) (merged : List (String × JSValue)) (key : String)
        (value : JSValue), isNullish value = true →
        mergeStep recur isRoot merged (key, value) = Except.ok merged) ∧
      (∀ recur (isRoot : Bool) (merged : List (String × JSValue)) (key : String)
          (xs ys : List JSValue), jsLookup merged key = JSValue.arr xs →
          mergeStep recur isRoot merged (key, JSValue.arr ys) =
            Except.ok (setKey merged key (JSValue.arr (xs ++ ys)))) ∧
      (∀ recur (isRoot : Bool) (merged : List (String × JSValue)) (key : String)
          (value : JSValue),
          isNullish value = false →
          (isArrayV (jsLookup merged key) && isArrayV value) = false →
          (isObjectV (jsLookup merged key) && isObjectV value) = false →
          (isRoot = true → isNullish (jsLookup merged key) = true ∨
            (key ≠ "alias" ∧ key ≠ "assetsInclude")) →
          mergeStep recur isRoot merged (key, value) =
            Except.ok (setKey merged key value)) ∧
      mergeConfig 1 [("a", JSValue.arr [JSValue.num 1])]
          [("a", JSValue.arr [JSValue.num 2])] true =
        Except.ok [("a", JSValue.arr [JSValue.num 1, JSValue.num 2])] ∧
      mergeConfig 1 [("a", JSValue.num 1)] [("a", JSValue.num 2)] true =
        Except.ok [("a", JSValue.num 2)] ∧
      mergeConfig 1 [("a", JSValue.num 1)] [("a", JSValue.null)] true =
        Except.ok [("a", JSValue.num 1)] := by
  refine ⟨?_, ?_, ?_, rfl, rfl, rfl⟩
  · intro recur isRoot merged key value h1
    simp [mergeStep, h1]
  · intro recur isRoot merged key xs ys h
    simp [mergeStep, h, isNullish, isArrayV, isObjectV, arrElems]
  · intro recur isRoot merged key value h1 h2 h3 h4
    cases isRoot with
    | false => simp [mergeStep, h1, h2, h3]
    | true =>
      rcases h4 rfl with h5 | ⟨ha, hb⟩
      · simp [mergeStep, h1, h2, h3, h5]
      · simp [mergeStep, h1, h2, h3, ha, hb]

/-- Claim C4, witness at a concrete input (replace rule). -/
theorem mergeConfig_generic_rules_witness :
    mergeStep (fun x _ => Except.ok x) true [("b", JSValue.num 1)]
      ("b", JSValue.num 2)
      = Except.ok (setKey [("b", JSValue.num 1)] "b" (JSValue.num 2)) :=
  mergeConfig_generic_rules.2.2.1 (fun x _ => Except.ok x) true
    [("b", JSValue.num 1)] "b" (JSValue.num 2) (by decide) (by decide)
    (by decide) (fun _ => Or.inr ⟨by decide, by decide⟩)

/-- Claim C5, counterexample: with arrays on both sides the generic
concatenation rule fires before the root-level special-casing, so the
`alias` pairs are NOT normalized — the trailing-slash pair `/src/`→`/root/`
stays untrimmed, differing from the Alias Normalizer merge the claim
demands. -/
theorem mergeConfig_alias_arrays_claim_fails :
    ¬ (mergeConfig 1
        [("alias", JSValue.arr
          [JSValue.obj [("find", JSValue.str "/src/"),
            ("replacement", JSValue.str "/root/")]])]
        [("alias", JSValue.arr
          [JSValue.obj [("find", JSValue.str "a"),
            ("replacement", JSValue.str "b")]])] true
      = (mergeAliasJS
            (JSValue.arr [JSValue.obj [("find", JSValue.str "/src/"),
              ("replacement", JSValue.str "/root/")]])
            (JSValue.arr [JSValue.obj [("find", JSValue.str "a"),
              ("replacement", JSValue.str "b")]])).map
          (fun l => setKey
            [("alias", JSValue.arr
              [JSValue.obj [("find", JSValue.str "/src/"),
                ("replacement", JSValue.str "/root/")]])]
            "alias" (JSValue.arr l))) := by
  intro h
  simp only [show mergeConfig 1
      [("alias", JSValue.arr
        [JSValue.obj [("find", JSValue.str "/src/"),
          ("replacement", JSValue.str "/root/")]])]
      [("alias", JSValue.arr
        [JSValue.obj [("find", JSValue.str "a"),
          ("replacement", JSValue.str "b")]])] true
    = Except.ok [("alias", JSValue.arr
        [JSValue.obj [("find", JSValue.str "/src/"),
          ("replacement", JSValue.str "/root/")],
         JSValue.obj [("find", JSValue.str "a"),
          ("replacement", JSValue.str "b")]])] from rfl,
    show (mergeAliasJS
            (JSValue.arr [JSValue.obj [("find", JSValue.str "/src/"),
              ("replacement", JSValue.str "/root/")]])
            (JSValue.arr [JSValue.obj [("find", JSValue.str "a"),
              ("replacement", JSValue.str "b")]])).map
          (fun l => setKey
            [("alias", JSValue.arr
              [JSValue.obj [("find", JSValue.str "/src/"),
                ("replacement", JSValue.str "/root/")]])]
            "alias" (JSValue.arr l))
      = Except.ok [("alias", JSValue.arr
          [JSValue.obj [("find", JSValue.str "/src"),
            ("replacement", JSValue.str "/root")],
           JSValue.obj [("find", JSValue.str "a"),
            ("replacement", JSValue.str "b")]])] from rfl] at h
  simp at h

/-- Claim C5 (amended): at root, the special handling of `alias` and
`assetsInclude` applies only after the generic sequence/mapping rules:
with both sides non-nullish and not both sequences nor both plain
mappings, `alias` merges via the Alias Normalizer and `assetsInclude`
concatenates the coerced lists (for two sequences the generic rule gives
the same concatenated-list result for `assetsInclude`, but `alias`
entries are left unnormalized); at nested levels (`isRoot = false`) no
special-casing applies. -/
theorem mergeConfig_root_special_rules :
    (∀ (recur : List (String × JSValue) → List (String × JSValue) →
          Except Unit (List (String × JSValue)))
        (merged : List (String × JSValue)) (v : JSValue),
        isNullish (jsLookup merged "alias") = false → isNullish v = false →
        (isArrayV (jsLookup merged "alias") && isArrayV v) = false →
        (isObjectV (jsLookup merged "alias") && isObjectV v) = false →
        mergeStep recur true merged ("alias", v) =
          (mergeAliasJS (jsLookup merged "alias") v).map
            (fun l => setKey merged "alias" (JSValue.arr l))) ∧
      (∀ recur (merged : List (String × JSValue)) (v : JSValue),
        isNullish (jsLookup merged "assetsInclude") = false →
        isNullish v = false →
        (isObjectV (jsLookup merged "assetsInclude") && isObjectV v) = false →
        mergeStep recur true merged ("assetsInclude", v) =
          Except.ok (setKey merged "assetsInclude"
            (JSValue.arr (toArr (jsLookup merged "assetsInclude") ++ toArr v)))) ∧
      (∀ recur (merged : List (String × JSValue)) (key : String) (v : JSValue),
        isNullish v = false →
        (isArrayV (jsLookup merged key) && isArrayV v) = false →
        (isObjectV (jsLookup merged key) && isObjectV v) = false →
        mergeStep recur false merged (key, v) =
          Except.ok (setKey merged key v)) := by
  refine ⟨?_, ?_, ?_⟩
  · intro recur merged v h1 h2 h3 h4
    simp [mergeStep, h1, h2, h3, h4]
  · intro recur merged v h1 h2 h3
    by_cases ha : (isArrayV (jsLookup merged "assetsInclude") && isArrayV v) = true
    · rw [Bool.and_eq_true] at ha
      obtain ⟨hae, hav⟩ := ha
      obtain ⟨xs, hxs⟩ := isArrayV_arr hae
      obtain ⟨ys, hys⟩ := isArrayV_arr hav
      subst hys
      simp [mergeStep, hxs, isNullish, isArrayV, arrElems, toArr]
    · have ha2 : (isArrayV (jsLookup merged "assetsInclude") && isArrayV v)
          = false := by simpa using ha
      simp [mergeStep, h1, h2, h3, ha2]
  · intro recur merged key v h1 h2 h3
    simp [mergeStep, h1, h2, h3]

/-- Claim C5, witness at a concrete input (alias rule, mixed shapes). -/
theorem mergeConfig_root_special_rules_witness :
    mergeStep (fun x _ => Except.ok x) true [("alias", JSValue.str "s")]
      ("alias", JSValue.str "t")
      = (mergeAliasJS (jsLookup [("alias", JSValue.str "s")] "alias")
          (JSValue.str "t")).map
          (fun l => setKey [("alias", JSValue.str "s")] "alias" (JSValue.arr l)) :=
  mergeConfig_root_special_rules.1 (fun x _ => Except.ok x)
    [("alias", JSValue.str "s")] (JSValue.str "t")
    (by decide) (by decide) (by decide) (by decide)

/-- Claim C9, counterexample: with a root `alias` of mixed shapes the
normalizer destructures an entry whose `find` is the string `a/` (ending
in a separator) while its replacement is the number `1`; the trim rule
then calls `endsWith` on a non-string and throws, so `mergeConfig` is not
total. -/
theorem mergeConfig_alias_throw_claim_fails :
    mergeConfig 1 [("alias", JSValue.obj [("a/", JSValue.num 1)])]
      [("alias", JSValue.str "x")] true = Except.error () := rfl

/-- Claim C9 (amended): `mergeConfig` never throws at nested levels, and
never throws at the root when the override carries no `alias` key; the
only failures are `TypeError`s raised while normalizing a root-level
`alias` pair (nullish entry, or string `find` ending in `/` with a
non-string replacement — see the counterexample). -/
theorem mergeConfig_total_except_alias :
    (∀ (fuel : Nat) (a b : List (String × JSValue)),
        ∃ r, mergeConfig fuel a b false = Except.ok r) ∧
      (∀ (fuel : Nat) (a b : List (String × JSValue)),
        (∀ kv ∈ b, kv.1 ≠ "alias") →
          ∃ r, mergeConfig fuel a b true = Except.ok r) := by
  refine ⟨mergeConfig_false_total, ?_⟩
  intro fuel a b hb
  cases fuel with
  | zero => exact ⟨a, rfl⟩
  | succ f =>
    simp only [mergeConfig]
    exact foldlM_ok _ b a
      (fun t kv hkv => mergeStep_root_ok _
        (fun x y => mergeConfig_false_total f x y) t kv (hb kv hkv))

/-- Claim C9, witness at a concrete input. -/
theorem mergeConfig_total_except_alias_witness :
    ∃ r, mergeConfig 1 [] [("x", JSValue.num 1)] true = Except.ok r :=
  mergeConfig_total_except_alias.2 1 [] [("x", JSValue.num 1)] (by decide)

/-! ## Claim C6: plugin ordering and hook invocation order -/

theorem sortUserPlugins_go (ps : List Plugin) :
    ∀ acc : List Plugin × List Plugin × List Plugin,
      ps.foldl
        (fun acc p =>
          if p.enforce == some "pre" then (acc.1 ++ [p], acc.2.1, acc.2.2)
          else if p.enforce == some "post" then (acc.1, acc.2.1, acc.2.2 ++ [p])
          else (acc.1, acc.2.1 ++ [p], acc.2.2))
        acc =
        (acc.1 ++ ps.filter (fun p => p.enforce == some "pre"),
         acc.2.1 ++ ps.filter
           (fun p => !(p.enforce == some "pre") && !(p.enforce == some "post")),
         acc.2.2 ++ ps.filter (fun p => p.enforce == some "post")) := by
  induction ps with
  | nil => intro acc; simp
  | cons p ps ih =>
    intro acc
    rw [List.foldl_cons, ih, List.filter_cons, List.filter_cons,
      List.filter_cons]
    by_cases h1 : p.enforce = some "pre"
    · simp [h1]
    · by_cases h2 : p.enforce = some "post"
      · simp [h1, h2]
      · simp [h1, h2]

/-- Claim C6: plugins with a non-matching `apply` are dropped; the rest
partition order-preservingly into pre / normal / post buckets by `enforce`
and concatenate as `[pre, normal, post]`; the `config` and
`configResolved` hook invocation sequences follow exactly that order; and
`[A(normal), B(pre), C(post), D(pre)]` sorts to `[B, D, A, C]`. -/
theorem pluginPipeline_order_spec :
    (∀ (entries : List PluginEntry) (command : String),
        userPluginsOrder entries command =
          (rawUserPlugins entries command).filter
            (fun p => p.enforce == some "pre") ++
          (rawUserPlugins entries command).filter
            (fun p => !(p.enforce == some "pre") && !(p.enforce == some "post")) ++
          (rawUserPlugins entries command).filter
            (fun p => p.enforce == some "post")) ∧
      (∀ (entries : List PluginEntry) (command : String),
        rawUserPlugins entries command =
          (flattenPlugins entries).filter
            (fun p => p.apply.isNone || p.apply == some command)) ∧
      (∀ (entries : List PluginEntry) (command : String),
        configHookOrder entries command =
          (userPluginsOrder entries command).filter (fun p => p.hasConfig)) ∧
      (∀ (entries : List PluginEntry) (command : String),
        configResolvedHookOrder entries command =
          (userPluginsOrder entries command).filter
            (fun p => p.hasConfigResolved)) ∧
      userPluginsOrder pluginEntriesEx "serve" =
        [pluginB, pluginD, pluginA, pluginC] := by
  refine ⟨?_, fun _ _ => rfl, fun _ _ => rfl, fun _ _ => rfl, by decide⟩
  intro entries command
  show (sortUserPlugins (some (rawUserPlugins entries command))).1 ++ _ ++ _ = _
  simp only [sortUserPlugins]
  rw [sortUserPlugins_go]
  simp

/-! ## Claim C7: the transient compiled-config artifact -/

/-- Claim C7 (code bug): in the native-ESM TypeScript branch the artifact
`<config>.ts.js` is written and then deleted only on the success path; when
the dynamic import of the artifact throws, `fs.unlinkSync` is never
reached (there is no try/finally around it), the error propagates, and
the artifact remains on disk — contradicting the claimed guaranteed
cleanup on every exit path.  The success path does delete it. -/
theorem loadConfig_ts_esm_artifact_leak :
    loadConfigFromFileModel ⟨true, false, false, true, true, false, true⟩ none
      = (LoadResult.threw, true) ∧
    loadConfigFromFileModel ⟨true, false, false, true, true, true, true⟩ none
      = (LoadResult.ok, false) := by decide

/-! ## Claim C10: every `loadEnv` result key carries the prefixStr -/

theorem foldl_pres {α β : Type} (P : α → Prop) (g : α → β → α)
    (hg : ∀ s x, P s → P (g s x)) :
    ∀ (l : List β) (s : α), P s → P (l.foldl g s) := by
  intro l
  induction l with
  | nil => intro s h; simpa using h
  | cons x xs ih => intro s h; exact ih _ (hg _ _ h)

theorem envProcessStep_pres (prefixStr : String)
    (acc : List (String × String)) (kv : String × String)
    (h : ∀ x ∈ acc, strStartsWith x.1 prefixStr = true) :
    ∀ x ∈ envProcessStep prefixStr acc kv,
      strStartsWith x.1 prefixStr = true := by
  unfold envProcessStep
  split
  · rename_i hguard
    rw [Bool.and_eq_true] at hguard
    intro x hx
    rcases List.mem_append.mp hx with hx1 | hx2
    · exact h x hx1
    · rw [List.mem_singleton.mp hx2]; exact hguard.1
  · exact h

theorem envFileEntryStep_pres (prefixStr : String)
    (acc : List (String × String)) (kv : String × String)
    (h : ∀ x ∈ acc, strStartsWith x.1 prefixStr = true) :
    ∀ x ∈ envFileEntryStep prefixStr acc kv,
      strStartsWith x.1 prefixStr = true := by
  unfold envFileEntryStep
  split
  · rename_i hguard
    rw [Bool.and_eq_true] at hguard
    intro x hx
    rcases List.mem_append.mp hx with hx1 | hx2
    · exact h x hx1
    · rw [List.mem_singleton.mp hx2]; exact hguard.1
  · split
    · exact h
    · exact h

theorem envFileStep_pres (p : EnvProvider) (root prefixStr : String)
    (acc : List (String × String)) (file : String)
    (h : ∀ x ∈ acc, strStartsWith x.1 prefixStr = true) :
    ∀ x ∈ envFileStep p root prefixStr acc file,
      strStartsWith x.1 prefixStr = true := by
  unfold envFileStep
  cases p.parsedFile root file with
  | none => simpa using h
  | some parsed =>
    simp only
    exact foldl_pres
      (fun a : List (String × String) =>
        ∀ x ∈ a, strStartsWith x.1 prefixStr = true)
      (envFileEntryStep prefixStr)
      (fun s x hs => envFileEntryStep_pres prefixStr s x hs) parsed acc h

/-- Claim C10: every key of the mapping returned by `loadEnv` starts with
the configured variable name prefixStr — keys from `process.env` or from
any `.env` file that lack it are never exposed. -/
theorem loadEnv_keys_prefixed (p : EnvProvider) (mode root prefixStr : String)
    (res : List (String × String))
    (h : loadEnv p mode root prefixStr = Except.ok res) :
    ∀ kv ∈ res, strStartsWith kv.1 prefixStr = true := by
  unfold loadEnv at h
  split at h
  · simp at h
  · rw [Except.ok.injEq] at h
    subst h
    exact foldl_pres
      (fun a : List (String × String) =>
        ∀ x ∈ a, strStartsWith x.1 prefixStr = true)
      (envFileStep p root prefixStr)
      (fun s x hs => envFileStep_pres p root prefixStr s x hs) _ _
      (foldl_pres
        (fun a : List (String × String) =>
          ∀ x ∈ a, strStartsWith x.1 prefixStr = true)
        (envProcessStep prefixStr)
        (fun s x hs => envProcessStep_pres prefixStr s x hs) _ []
        (by intro x hx; simp at hx))

/-- Claim C10, witness at a concrete input. -/
theorem loadEnv_keys_prefixed_witness :
    strStartsWith "VITE_X" "VITE_" = true :=
  loadEnv_keys_prefixed provC10 "development" "r" "VITE_"
    [("VITE_X", "1"), ("VITE_Y", "3")] rfl ("VITE_X", "1") (by decide)

end ViteSpec
